import Mathlib

/-!
Verification of the research planner and executor agent
(research_planner_executor_agent.py and llm_client.py).

The development shallowly embeds the program:
pure functions (the task parser, text helpers) become Lean functions;
the external model backend and the search provider are parameters
(functions injected into each adapter operation); Python exceptions are
modelled with Except, Python None with Option, and the Streamlit session
state as an explicit record transformed by the driver handlers.
-/

namespace ResearchAgent

/-- The error channel of the external backends. A raised Python exception
is modelled as Except.error carrying the message string. -/
abbrev Err := String

/-- Python str.join with a separator: joinSep s [a, b, c] = a ++ s ++ b ++ s ++ c,
joinSep s [] = the empty string. -/
def joinSep (s : String) : List String → String
  | [] => ""
  | [x] => x
  | x :: y :: rest => x ++ s ++ joinSep s (y :: rest)

/-! ## Task parser (parse_tasks in research_planner_executor_agent.py)

The source applies re.finditer with the pattern
(line-start)(digits)(one of period, parenthesis, hyphen)(any whitespace run)
(lazy body)(lookahead: newline-digits-separator, or blank line, or end),
flags MULTILINE and DOTALL, and post-processes each body with
strip() and replacing every newline with a space.
The embedding below implements exactly this matching discipline on List Char. -/

/-- Python \s on the ASCII range: the whitespace class of the regex. -/
def pySpace (c : Char) : Bool :=
  c == ' ' || c == '\t' || c == '\n' || c == '\r' || c == '\x0b' || c == '\x0c'

/-- The separator class of the pattern: period, closing parenthesis or hyphen. -/
def isSep (c : Char) : Bool :=
  c == '.' || c == ')' || c == '-'

/-- Does the suffix start with a newline followed by either another newline
(blank line) or a nonempty digit run and a separator?  This is the first
two alternatives of the lookahead in the pattern. -/
def nextTaskLine (l : List Char) : Bool :=
  match l with
  | [] => false
  | c :: rest =>
    c == '\n' &&
      ((match rest with | c2 :: _ => c2 == '\n' | [] => false) ||
       (let ds := rest.takeWhile Char.isDigit
        !ds.isEmpty &&
          (match rest.drop ds.length with | c2 :: _ => isSep c2 | [] => false)))

/-- The full lookahead of the pattern: next ordinal line, blank line,
or end of input. -/
def lookahead (l : List Char) : Bool :=
  l.isEmpty || nextTaskLine l

/-- The lazy body group: consume at least one character and stop at the first
position where the lookahead succeeds.  Returns the body and the rest. -/
def takeBody : List Char → List Char × List Char
  | [] => ([], [])
  | c :: rest =>
    if lookahead rest then ([c], rest)
    else
      let p := takeBody rest
      (c :: p.1, p.2)

/-- Attempt the pattern at the current position (which the caller has checked
to be a line start).  Returns (ordinal digits, raw body, rest after the match)
or none.  The whitespace run after the separator is taken greedily; when it
would swallow the whole remaining input the engine backtracks one character so
that the body group can consume at least one character. -/
def tryMatch (s : List Char) : Option (List Char × List Char × List Char) :=
  let ds := s.takeWhile Char.isDigit
  if ds.isEmpty then none
  else
    match s.drop ds.length with
    | [] => none
    | c :: t =>
      if isSep c then
        if t.isEmpty then none
        else
          let w := (t.takeWhile pySpace).length
          let k := if w == t.length then t.length - 1 else w
          let bp := takeBody (t.drop k)
          some (ds, bp.1, bp.2)
      else none

/-- The finditer scan: try the pattern at every line-start position, emit
non-overlapping matches and resume after each match, otherwise advance one
character.  The fuel argument is an upper bound on the number of steps;
every step consumes at least one character, so the input length suffices. -/
def scanAux : Nat → Bool → List Char → List (List Char × List Char)
  | 0, _, _ => []
  | _ + 1, _, [] => []
  | fuel + 1, atLS, c :: rest =>
    if atLS then
      match tryMatch (c :: rest) with
      | some (num, body, r) =>
        (num, body) :: scanAux fuel (body.getLast? == some '\n') r
      | none => scanAux fuel (c == '\n') rest
    else scanAux fuel (c == '\n') rest

/-- Python str.strip restricted to the ASCII whitespace class. -/
def stripChars (l : List Char) : List Char :=
  ((l.dropWhile pySpace).reverse.dropWhile pySpace).reverse

/-- The replace step: each newline becomes a single space. -/
def nl2sp (c : Char) : Char :=
  if c = '\n' then ' ' else c

/-- A parsed task: the ordinal exactly as matched and the cleaned description. -/
structure Task where
  num : String
  text : String
deriving DecidableEq, Repr

/-- parse_tasks from research_planner_executor_agent.py. -/
def parse_tasks (text : String) : List Task :=
  (scanAux text.data.length true text.data).map fun p =>
    { num := String.mk p.1, text := String.mk ((stripChars p.2).map nl2sp) }

/-- Does the character list begin with a nonempty digit run, then a separator,
then at least one further character?  This is exactly the condition under
which tryMatch succeeds at a position. -/
def ordinalStart (l : List Char) : Bool :=
  let ds := l.takeWhile Char.isDigit
  !ds.isEmpty &&
    (match l.drop ds.length with
     | c :: t => isSep c && !t.isEmpty
     | [] => false)

/-! ## Backend data model (llm_client.py) -/

/-- An interaction object returned by the stateful backend: its id, its status
string, and its outputs.  Each output either has a text attribute (some) or
not (none); get_text filters on that. -/
structure Interaction where
  id : String
  status : String
  outputs : List (Option String)
deriving DecidableEq, Repr

/-- get_text from llm_client.py: join the nonempty texts of the outputs with
newlines; an empty join is the empty string. -/
def get_text (outputs : List (Option String)) : String :=
  joinSep "\n" ((outputs.filterMap id).filter fun s => !s.isEmpty)

/-- The dictionary returned by create_plan: server-side id (if any) and the
plan text. -/
structure PlanResult where
  id : Option String
  text : String
deriving DecidableEq, Repr

/-- The dictionary returned by execute_research: server-side id (if any) and
the aggregated findings text.  The raw backend payload is not modelled. -/
structure ResearchResult where
  id : Option String
  text : String
deriving DecidableEq, Repr

/-- One search result of the search provider: title, body snippet, url. -/
structure SearchHit where
  title : String
  body : String
  href : String
deriving DecidableEq, Repr

/-! ## Stateful-chain adapter (GeminiClient in llm_client.py)

Each operation takes the outcome of the external calls it makes as an
argument: Except.error models a raised exception, which the adapter code
catches or does not catch exactly as the source does. -/

namespace GeminiClient

/-- create_plan: one interactions.create call; any exception is caught and
None (here: Except.ok none) is returned. -/
def create_plan (createRes : Except Err Interaction) : Except Err (Option PlanResult) :=
  match createRes with
  | .ok i => .ok (some { id := some i.id, text := get_text i.outputs })
  | .error _ => .ok none

/-- One pass of the polling loop of wait_for_completion, structured on the
number of remaining iterations.  The loop in the source runs while
elapsed < timeout with elapsed increasing by 3 each iteration, so from
elapsed = 3 * k there are ceil((timeout - 3 * k) / 3) iterations left; the
caller supplies that count as fuel.  Each iteration issues interactions.get
(argument get, indexed by poll number, erroring when the call raises).  On a
status other than in_progress the bar is set to 100 and the interaction
returned; otherwise the bar is set to min 90 (elapsed * 100 / timeout) with
the incremented elapsed.  (The source computes int(elapsed/timeout*100) in
floating point; the embedding uses exact integer division.  The two can
differ by one unit on a few steps, which does not affect any ordering or
bound stated below.)  After the loop one final get is issued.  The
returned list is the sequence of progress values reported by the loop (the
initial 0 shown when the bar is created is not included). -/
def waitLoopAux (get : Nat → Except Err Interaction) (timeout : Nat) :
    Nat → Nat → Except Err (Interaction × List Nat)
  | 0, k => (get k).map fun i => (i, [])
  | n + 1, k =>
    match get k with
    | .error e => .error e
    | .ok i =>
      if i.status = "in_progress" then
        let p := min 90 (3 * (k + 1) * 100 / timeout)
        (waitLoopAux get timeout n (k + 1)).map fun q => (q.1, p :: q.2)
      else .ok (i, [100])

/-- wait_for_completion from llm_client.py: poll every 3 time-units until the
status leaves in_progress or the 300-unit default budget elapses (the number
of loop iterations is ceil(timeout / 3)). -/
def wait_for_completion (get : Nat → Except Err Interaction) (timeout : Nat) :
    Except Err (Interaction × List Nat) :=
  waitLoopAux get timeout ((timeout + 2) / 3) 0

/-- A backend whose polls never raise. -/
def pureGet (f : Nat → Interaction) : Nat → Except Err Interaction :=
  fun k => .ok (f k)

/-- execute_research: one background interactions.create (createRes), then
wait_for_completion with the default 300 budget; all exceptions, from the
create call or from any poll, are caught and None is returned.  The result
text is get_text of the final outputs, falling back to the literal
Status: (status) string when that text is empty. -/
def execute_research (createRes : Except Err Interaction)
    (get : Nat → Except Err Interaction) : Except Err (Option ResearchResult) :=
  match createRes with
  | .error _ => .ok none
  | .ok _ =>
    match wait_for_completion get 300 with
    | .error _ => .ok none
    | .ok (i, _) =>
      .ok (some { id := some i.id,
                  text := if get_text i.outputs = ""
                          then "Status: " ++ i.status
                          else get_text i.outputs })

/-- synthesize_report: one synchronous call; on an exception the empty string
is returned (note: not None). -/
def synthesize_report (createRes : Except Err Interaction) : String :=
  match createRes with
  | .ok i => get_text i.outputs
  | .error _ => ""

/-- The loop over response parts in generate_infographic: the first part
carrying truthy inline data is returned. -/
def firstInlineData : List (Option (List Nat)) → Option (List Nat)
  | [] => none
  | p :: rest =>
    match p with
    | some d => some d
    | none => firstInlineData rest

/-- generate_infographic: one image-generation call; on an exception, or when
no part carries inline data, None is returned. -/
def generate_infographic (resp : Except Err (List (Option (List Nat)))) :
    Option (List Nat) :=
  match resp with
  | .error _ => none
  | .ok parts => firstInlineData parts

end GeminiClient

/-! ## Stateless-chat adapter (OpenAICompatibleClient in llm_client.py) -/

namespace OpenAICompatibleClient

/-- A single quote character, used in the analysis prompt below. -/
def sq : String := String.singleton (Char.ofNat 39)

/-- The search context block: one line per hit. -/
def searchContext (hits : List SearchHit) : String :=
  joinSep "\n" (hits.map fun r => "- " ++ r.title ++ ": " ++ r.body ++ " (" ++ r.href ++ ")")

/-- The per-task analysis prompt sent to the model. -/
def analyzePrompt (task ctx : String) : String :=
  "Analyze these search results for the task: " ++ sq ++ task ++ sq ++
    ". Extract key facts and details.\n\nResults:\n" ++ ctx

/-- The loop body of execute_research, iterated over the selected tasks in
order.  For each task the search provider is called first: that call is NOT
inside the try block in the source, so an exception from it propagates and
aborts the whole operation (earlier sections are discarded).  The completion
call is inside a try: its failure is recorded inline as an error section for
that task only. -/
def researchLoop (search : String → Except Err (List SearchHit))
    (complete : String → Except Err String) : List String → Except Err (List String)
  | [] => .ok []
  | task :: rest =>
    match search task with
    | .error e => .error e
    | .ok hits =>
      let ctx := searchContext hits
      let sec :=
        match complete (analyzePrompt task ctx) with
        | .ok summary =>
          "### Research for: " ++ task ++ "\n" ++ summary ++ "\n\nSources:\n" ++ ctx
        | .error e => "### Research for: " ++ task ++ "\nError: " ++ e
      match researchLoop search complete rest with
      | .error e => .error e
      | .ok secs => .ok (sec :: secs)

/-- The per-task section a successful search produces, whether or not the
summarization call succeeds.  (The search-error branch is unreachable when
the search succeeds; it defaults to the empty string.) -/
def sectionText (search : String → Except Err (List SearchHit))
    (complete : String → Except Err String) (task : String) : String :=
  match search task with
  | .error _ => ""
  | .ok hits =>
    let ctx := searchContext hits
    match complete (analyzePrompt task ctx) with
    | .ok summary =>
      "### Research for: " ++ task ++ "\n" ++ summary ++ "\n\nSources:\n" ++ ctx
    | .error e => "### Research for: " ++ task ++ "\nError: " ++ e

/-- execute_research: run the loop and join the sections with blank lines.
A search exception escapes the adapter (no sentinel). -/
def execute_research (search : String → Except Err (List SearchHit))
    (complete : String → Except Err String) (tasks : List String) :
    Except Err ResearchResult :=
  match researchLoop search complete tasks with
  | .error e => .error e
  | .ok secs => .ok { id := none, text := joinSep "\n\n" secs }

/-- create_plan: one completion call; exceptions are caught and None
returned; there is no server-side id. -/
def create_plan (response : Except Err String) : Except Err (Option PlanResult) :=
  match response with
  | .ok content => .ok (some { id := none, text := content })
  | .error _ => .ok none

/-- synthesize_report: one completion call; on an exception the empty string
is returned (note: not None). -/
def synthesize_report (response : Except Err String) : String :=
  match response with
  | .ok content => content
  | .error _ => ""

/-- generate_infographic: text-only backends have no image capability; the
operation always returns None without calling anything. -/
def generate_infographic (_text : Option String) : Option (List Nat) :=
  none

end OpenAICompatibleClient

/-! ## Pipeline driver (research_planner_executor_agent.py)

The Streamlit session state and the button handlers become an explicit
record and functions on it.  Each handler takes the value the active
adapter returned and produces the new state plus the list of error or
warning messages surfaced to the presentation layer. -/

/-- The session state keys initialised at the top of the script. -/
structure SessionState where
  plan_id : Option String
  plan_text : Option String
  tasks : List Task
  research_id : Option String
  research_text : Option String
  synthesis_text : Option String
  infographic : Option (List Nat)
deriving DecidableEq, Repr

/-- The Reset State button handler: every key back to its initial value. -/
def resetState (_st : SessionState) : SessionState :=
  { plan_id := none, plan_text := none, tasks := [], research_id := none,
    research_text := none, synthesis_text := none, infographic := none }

/-- The Generate Plan button handler: on a truthy result with truthy text,
store the plan id, the plan text and the parsed tasks; otherwise surface the
failure message.  No other key is written. -/
def generatePlanHandler (st : SessionState) (result : Option PlanResult) :
    SessionState × List String :=
  match result with
  | some r =>
    if r.text.length > 0 then
      ({ st with plan_id := r.id, plan_text := some r.text,
                 tasks := parse_tasks r.text }, [])
    else (st, ["Failed to generate plan."])
  | none => (st, ["Failed to generate plan."])

/-- The Generate Executive Report button handler: store the synthesis when it
is a nonempty string, else surface the failure; then attempt the infographic
on the CURRENT synthesis_text state key, store it when present, and when it
is absent warn only when the provider is Google Gemini. -/
def reportHandler (provider : String) (st : SessionState) (synthesis : String)
    (infographicOf : Option String → Option (List Nat)) :
    SessionState × List String :=
  let st1 : SessionState :=
    if synthesis.length > 0 then { st with synthesis_text := some synthesis } else st
  let msgs1 : List String :=
    if synthesis.length > 0 then [] else ["Synthesis failed"]
  match infographicOf st1.synthesis_text with
  | some b => ({ st1 with infographic := some b }, msgs1)
  | none =>
    (st1, msgs1 ++
      (if provider = "Google Gemini"
       then ["Infographic generation failed or not supported."] else []))

/-! ## Well-formed plan text fragments

These describe a family of plan texts built from explicit task lines and
are used to state what the parser recognises.  They are statement
vocabulary, not part of the program. -/

/-- A well-formed ordinal: nonempty, all ASCII digits. -/
def wfNum (n : List Char) : Bool :=
  !n.isEmpty && n.all Char.isDigit

/-- Is the optional head not an ASCII digit (vacuously false when empty)? -/
def headNotDigit (l : List Char) : Bool :=
  match l.head? with
  | some c => !c.isDigit
  | none => false

/-- A well-formed single-line description: nonempty, no newline, and neither
starting nor ending with whitespace. -/
def wfDesc (d : List Char) : Bool :=
  !d.isEmpty && d.all (fun c => !(c == '\n')) &&
    (match d.head? with | some c => !pySpace c | none => false) &&
    (match d.getLast? with | some c => !pySpace c | none => false)

/-- A well-formed rendered task: ordinal, separator, description. -/
def wfTask (x : List Char × Char × List Char) : Bool :=
  wfNum x.1 && isSep x.2.1 && wfDesc x.2.2

/-- Render one task line: ordinal, separator, one space, description. -/
def renderTask (x : List Char × Char × List Char) : List Char :=
  x.1 ++ x.2.1 :: ' ' :: x.2.2

/-- Render a plan: task lines joined by single newlines. -/
def renderPlan : List (List Char × Char × List Char) → List Char
  | [] => []
  | [x] => renderTask x
  | x :: y :: rest => renderTask x ++ '\n' :: renderPlan (y :: rest)

/-- Substring test on character lists: does needle occur contiguously in the
haystack? -/
def containsSub (needle : List Char) : List Char → Bool
  | [] => needle.isEmpty
  | c :: t => needle.isPrefixOf (c :: t) || containsSub needle t

/-- Substring test on strings. -/
def strContains (hay needle : String) : Bool :=
  containsSub needle.data hay.data

/-! ## Theorems -/

/-- C1: the claim asserts that a successful create_plan clears
ResearchResult, SynthesisReport and Infographic.  At this concrete session
state, after a full prior pipeline run, a second successful Generate Plan
stores the new plan yet every downstream artifact is still present:
the handler writes only plan_id, plan_text and tasks. -/
theorem C1_counterexample :
    (generatePlanHandler
        { plan_id := some "pid0", plan_text := some "old plan",
          tasks := [{ num := "1", text := "Old" }], research_id := some "rid0",
          research_text := some "old research", synthesis_text := some "old report",
          infographic := some [1, 2, 3] }
        (some { id := some "pid1", text := "1. New" })).1.plan_text = some "1. New" ∧
    (generatePlanHandler
        { plan_id := some "pid0", plan_text := some "old plan",
          tasks := [{ num := "1", text := "Old" }], research_id := some "rid0",
          research_text := some "old research", synthesis_text := some "old report",
          infographic := some [1, 2, 3] }
        (some { id := some "pid1", text := "1. New" })).1.research_text = some "old research" ∧
    (generatePlanHandler
        { plan_id := some "pid0", plan_text := some "old plan",
          tasks := [{ num := "1", text := "Old" }], research_id := some "rid0",
          research_text := some "old research", synthesis_text := some "old report",
          infographic := some [1, 2, 3] }
        (some { id := some "pid1", text := "1. New" })).1.synthesis_text = some "old report" ∧
    (generatePlanHandler
        { plan_id := some "pid0", plan_text := some "old plan",
          tasks := [{ num := "1", text := "Old" }], research_id := some "rid0",
          research_text := some "old research", synthesis_text := some "old report",
          infographic := some [1, 2, 3] }
        (some { id := some "pid1", text := "1. New" })).1.infographic = some [1, 2, 3] :=
  ⟨rfl, rfl, rfl, rfl⟩

/-- C1 amended: re-running create_plan does NOT clear downstream artifacts:
for every state and every adapter result the Generate Plan handler leaves
research_text, synthesis_text and infographic exactly as they were; only the
separate Reset State action clears them. -/
theorem C1_amended (st : SessionState) (result : Option PlanResult) :
    (generatePlanHandler st result).1.research_text = st.research_text ∧
    (generatePlanHandler st result).1.synthesis_text = st.synthesis_text ∧
    (generatePlanHandler st result).1.infographic = st.infographic ∧
    (resetState st).research_text = none ∧
    (resetState st).synthesis_text = none ∧
    (resetState st).infographic = none := by
  refine ⟨?_, ?_, ?_, rfl, rfl, rfl⟩ <;>
    · cases result with
      | none => rfl
      | some r =>
        by_cases h : r.text.length > 0 <;> simp [generatePlanHandler, h]

/-- When every search outcome along the task list is a success, the
stateless-chat research loop never raises. -/
theorem researchLoop_isOk (search : String → Except Err (List SearchHit))
    (complete : String → Except Err String) :
    ∀ tasks : List String, (∀ t ∈ tasks, (search t).isOk = true) →
      (OpenAICompatibleClient.researchLoop search complete tasks).isOk = true := by
  intro tasks
  induction tasks with
  | nil => intro _; rfl
  | cons t rest ih =>
    intro h
    have ht := h t (List.mem_cons_self t rest)
    have hrest := ih fun x hx => h x (List.mem_cons_of_mem t hx)
    cases hs : search t with
    | error e => rw [hs] at ht; simp [Except.isOk, Except.toBool] at ht
    | ok hits =>
      cases hr : OpenAICompatibleClient.researchLoop search complete rest with
      | error e => rw [hr] at hrest; simp [Except.isOk, Except.toBool] at hrest
      | ok secs =>
        simp only [OpenAICompatibleClient.researchLoop, hs, hr]
        cases complete (OpenAICompatibleClient.analyzePrompt t
          (OpenAICompatibleClient.searchContext hits)) <;> rfl

/-- C2: the claim asserts that every adapter operation converts every
backend or search fault into a sentinel and never lets an exception escape.
The stateless-chat execute_research calls the search provider outside its
try block: a raised search fault propagates out of the adapter unchanged,
with no sentinel, already for a single-task list. -/
theorem C2_counterexample :
    OpenAICompatibleClient.execute_research
      (fun _ => .error "search provider down") (fun _ => .ok "summary")
      ["task one"] = .error "search provider down" := rfl

/-- C2 amended: every adapter operation absorbs model-backend faults and
returns its sentinel, EXCEPT the stateless-chat execute_research, where only
the summarization fault is absorbed per task while a search-provider fault
propagates past the adapter boundary.  Conjuncts: the four stateful-chain
operations never raise (create_plan and execute_research always return ok,
with none as the failure sentinel; synthesize_report returns the empty
string on a fault; generate_infographic returns none on a fault); the
stateless-chat create_plan always returns ok, synthesize_report returns the
empty string on a fault, generate_infographic is constantly none; and the
stateless-chat execute_research returns ok provided every search call
succeeds. -/
theorem C2_amended :
    (∀ r, (GeminiClient.create_plan r).isOk = true) ∧
    (∀ cr get, (GeminiClient.execute_research cr get).isOk = true) ∧
    (∀ e, GeminiClient.synthesize_report (.error e) = "") ∧
    (∀ e, GeminiClient.generate_infographic (.error e) = none) ∧
    (∀ r, (OpenAICompatibleClient.create_plan r).isOk = true) ∧
    (∀ e, OpenAICompatibleClient.synthesize_report (.error e) = "") ∧
    (∀ t, OpenAICompatibleClient.generate_infographic t = none) ∧
    (∀ search complete tasks, (∀ t ∈ tasks, (search t).isOk = true) →
      (OpenAICompatibleClient.execute_research search complete tasks).isOk = true) := by
  refine ⟨?_, ?_, fun _ => rfl, fun _ => rfl, ?_, fun _ => rfl, fun _ => rfl, ?_⟩
  · intro r; cases r <;> rfl
  · intro cr get
    cases cr with
    | error e => rfl
    | ok i =>
      cases h : GeminiClient.wait_for_completion get 300 with
      | error e => simp only [GeminiClient.execute_research, h]; rfl
      | ok q => simp only [GeminiClient.execute_research, h]; rfl
  · intro r; cases r <;> rfl
  · intro search complete tasks h
    have := researchLoop_isOk search complete tasks h
    cases hr : OpenAICompatibleClient.researchLoop search complete tasks with
    | error e => rw [hr] at this; simp [Except.isOk, Except.toBool] at this
    | ok secs => simp only [OpenAICompatibleClient.execute_research, hr]; rfl

/-- C2 witness: the amended theorem applied at a concrete backend whose
searches succeed and whose completion calls all fail. -/
theorem C2_witness :
    (OpenAICompatibleClient.execute_research
      (fun _ => .ok [{ title := "T", body := "B", href := "H" }])
      (fun _ => .error "model down") ["task one"]).isOk = true :=
  C2_amended.2.2.2.2.2.2.2
    (fun _ => .ok [{ title := "T", body := "B", href := "H" }])
    (fun _ => .error "model down") ["task one"] (fun _ _ => rfl)

/-- When every search succeeds, the research loop produces exactly one
section per task, in task order. -/
theorem researchLoop_sections (search : String → Except Err (List SearchHit))
    (complete : String → Except Err String) :
    ∀ tasks : List String, (∀ t ∈ tasks, (search t).isOk = true) →
      OpenAICompatibleClient.researchLoop search complete tasks =
        .ok (tasks.map (OpenAICompatibleClient.sectionText search complete)) := by
  intro tasks
  induction tasks with
  | nil => intro _; rfl
  | cons t rest ih =>
    intro h
    have ht := h t (List.mem_cons_self t rest)
    cases hs : search t with
    | error e => rw [hs] at ht; simp [Except.isOk, Except.toBool] at ht
    | ok hits =>
      have hrest := ih fun x hx => h x (List.mem_cons_of_mem t hx)
      simp only [OpenAICompatibleClient.researchLoop, hs, hrest, List.map_cons]
      simp only [OpenAICompatibleClient.sectionText, hs]

/-- A section produced under a successful search is nonempty (it starts with
the section heading). -/
theorem sectionText_len (search : String → Except Err (List SearchHit))
    (complete : String → Except Err String) (t : String)
    (h : (search t).isOk = true) :
    0 < (OpenAICompatibleClient.sectionText search complete t).length := by
  cases hs : search t with
  | error e => rw [hs] at h; simp [Except.isOk, Except.toBool] at h
  | ok hits =>
    simp only [OpenAICompatibleClient.sectionText, hs]
    have h18 : ("### Research for: " : String).length = 18 := rfl
    cases complete (OpenAICompatibleClient.analyzePrompt t
        (OpenAICompatibleClient.searchContext hits)) <;>
      simp [String.length_append, h18]

/-- Joining a list whose head is nonempty produces nonempty text. -/
theorem joinSep_head_len (s x : String) (rest : List String) (h : 0 < x.length) :
    0 < (joinSep s (x :: rest)).length := by
  cases rest with
  | nil => simpa [joinSep] using h
  | cons y r => simp [joinSep, String.length_append]; omega

/-- C3: the claim asserts that a failure of EITHER the web search or the
summarization call is caught per task.  The search call is outside the try
block: at three selected tasks whose second search raises, the whole
execute_research raises, the remaining task never runs and no aggregated
text (with sections for the other two tasks) is returned. -/
theorem C3_counterexample :
    OpenAICompatibleClient.execute_research
      (fun t => if t = "task two" then .error "boom"
                else .ok [{ title := "T", body := "B", href := "H" }])
      (fun _ => .ok "summary")
      ["task one", "task two", "task three"] = .error "boom" := rfl

/-- C3 amended: only a summarization failure is isolated per task.  For any
non-empty task list on which every SEARCH call succeeds, execute_research
returns ok with one section per task in order, where a task whose
summarization call failed contributes an inline error section; the
aggregated text is nonempty (phase success).  A search failure, in
contrast, propagates and aborts the remaining tasks (see the
counterexample). -/
theorem C3_amended (search : String → Except Err (List SearchHit))
    (complete : String → Except Err String) (tasks : List String)
    (hne : tasks ≠ []) (hs : ∀ t ∈ tasks, (search t).isOk = true) :
    OpenAICompatibleClient.execute_research search complete tasks =
      .ok { id := none,
            text := joinSep "\n\n"
              (tasks.map (OpenAICompatibleClient.sectionText search complete)) } ∧
    0 < (joinSep "\n\n"
          (tasks.map (OpenAICompatibleClient.sectionText search complete))).length ∧
    (∀ t hits e, search t = .ok hits →
      complete (OpenAICompatibleClient.analyzePrompt t
        (OpenAICompatibleClient.searchContext hits)) = .error e →
      OpenAICompatibleClient.sectionText search complete t =
        "### Research for: " ++ t ++ "\nError: " ++ e) := by
  refine ⟨?_, ?_, ?_⟩
  · simp only [OpenAICompatibleClient.execute_research,
      researchLoop_sections search complete tasks hs]
  · cases tasks with
    | nil => exact absurd rfl hne
    | cons t rest =>
      exact joinSep_head_len _ _ _
        (sectionText_len search complete t (hs t (List.mem_cons_self t rest)))
  · intro t hits e hsearch hcomp
    simp only [OpenAICompatibleClient.sectionText, hsearch, hcomp]

/-- C3 witness: the amended theorem at three concrete tasks whose second
summarization call fails; the aggregated text keeps all three sections with
an inline error section in the middle. -/
theorem C3_witness :
    OpenAICompatibleClient.execute_research
      (fun _ => .ok [{ title := "T", body := "B", href := "H" }])
      (fun p => if strContains p "task two" then .error "model down" else .ok "facts")
      ["task one", "task two", "task three"] =
      .ok { id := none,
            text := joinSep "\n\n"
              (["task one", "task two", "task three"].map
                (OpenAICompatibleClient.sectionText
                  (fun _ => .ok [{ title := "T", body := "B", href := "H" }])
                  (fun p => if strContains p "task two" then .error "model down"
                            else .ok "facts"))) } :=
  (C3_amended
    (fun _ => .ok [{ title := "T", body := "B", href := "H" }])
    (fun p => if strContains p "task two" then .error "model down" else .ok "facts")
    ["task one", "task two", "task three"]
    (by simp) (by intro t ht; rfl)).1

/-- C8: the claim asserts the driver never branches on the configured
backend and surfaces the same messages whenever the adapter calls return the
same values.  With identical adapter returns (the same synthesis string and
an infographic attempt that returns none), the report handler surfaces a
warning when the provider is Google Gemini and stays silent for Ollama,
while the resulting states agree. -/
theorem C8_counterexample :
    (reportHandler "Google Gemini"
        { plan_id := none, plan_text := none, tasks := [], research_id := none,
          research_text := some "findings", synthesis_text := none, infographic := none }
        "Report text" (fun _ => none)).2 ≠
      (reportHandler "Ollama"
        { plan_id := none, plan_text := none, tasks := [], research_id := none,
          research_text := some "findings", synthesis_text := none, infographic := none }
        "Report text" (fun _ => none)).2 ∧
    (reportHandler "Google Gemini"
        { plan_id := none, plan_text := none, tasks := [], research_id := none,
          research_text := some "findings", synthesis_text := none, infographic := none }
        "Report text" (fun _ => none)).1 =
      (reportHandler "Ollama"
        { plan_id := none, plan_text := none, tasks := [], research_id := none,
          research_text := some "findings", synthesis_text := none, infographic := none }
        "Report text" (fun _ => none)).1 := by
  constructor
  · intro h
    exact absurd (congrArg List.length h) (by decide)
  · rfl

/-- C8 amended: the driver state updates depend only on the values returned
by the adapter, never on the provider; the surfaced messages also depend
only on those values except for one branch, the infographic-failure warning,
which is emitted exactly when the provider string is Google Gemini.  For all
providers p and q and identical adapter returns: the states agree; when p
and q agree on being Google Gemini the messages agree; a provider other
than Google Gemini never surfaces the infographic warning; and Google
Gemini surfaces it whenever the infographic attempt returns none. -/
theorem C8_amended (p q : String) (st : SessionState) (syn : String)
    (info : Option String → Option (List Nat)) :
    (reportHandler p st syn info).1 = (reportHandler q st syn info).1 ∧
    (((p = "Google Gemini") ↔ (q = "Google Gemini")) →
      (reportHandler p st syn info).2 = (reportHandler q st syn info).2) ∧
    (p ≠ "Google Gemini" →
      "Infographic generation failed or not supported." ∉ (reportHandler p st syn info).2) ∧
    (p = "Google Gemini" →
      info (reportHandler p st syn info).1.synthesis_text = none →
      "Infographic generation failed or not supported." ∈ (reportHandler p st syn info).2) := by
  simp only [reportHandler]
  by_cases hsyn : syn.length > 0
  · simp only [if_pos hsyn]
    cases hinfo : info ({ st with synthesis_text := some syn } : SessionState).synthesis_text with
    | some b =>
      simp only [hinfo]
      refine ⟨trivial, fun _ => trivial, fun _ h => by simp at h, fun hp hc => absurd hc (by simp)⟩
    | none =>
      simp only [hinfo]
      refine ⟨trivial, ?_, ?_, ?_⟩
      · intro hpq
        by_cases hp : p = "Google Gemini"
        · simp [hp, hpq.mp hp]
        · have hq : ¬ q = "Google Gemini" := fun h => hp (hpq.mpr h)
          simp [hp, hq]
      · intro hp
        simp [hp]
      · intro hp _
        simp [hp]
  · simp only [if_neg hsyn]
    cases hinfo : info st.synthesis_text with
    | some b =>
      simp only [hinfo]
      refine ⟨trivial, fun _ => trivial, fun _ h => by revert h; decide,
        fun hp hc => absurd hc (by simp)⟩
    | none =>
      simp only [hinfo]
      refine ⟨trivial, ?_, ?_, ?_⟩
      · intro hpq
        by_cases hp : p = "Google Gemini"
        · simp [hp, hpq.mp hp]
        · have hq : ¬ q = "Google Gemini" := fun h => hp (hpq.mpr h)
          simp [hp, hq]
      · intro hp
        simp only [if_neg hp, List.append_nil]
        decide
      · intro hp _
        simp [hp]

/-- C8 witness: the amended theorem at two concrete non-Gemini providers
with identical adapter returns: messages agree and no infographic warning is
surfaced. -/
theorem C8_witness :
    (reportHandler "Ollama"
        { plan_id := none, plan_text := none, tasks := [], research_id := none,
          research_text := some "findings", synthesis_text := none, infographic := none }
        "Report text" (fun _ => none)).2 =
      (reportHandler "vLLM"
        { plan_id := none, plan_text := none, tasks := [], research_id := none,
          research_text := some "findings", synthesis_text := none, infographic := none }
        "Report text" (fun _ => none)).2 ∧
    "Infographic generation failed or not supported." ∉
      (reportHandler "Ollama"
        { plan_id := none, plan_text := none, tasks := [], research_id := none,
          research_text := some "findings", synthesis_text := none, infographic := none }
        "Report text" (fun _ => none)).2 :=
  ⟨(C8_amended "Ollama" "vLLM"
      { plan_id := none, plan_text := none, tasks := [], research_id := none,
        research_text := some "findings", synthesis_text := none, infographic := none }
      "Report text" (fun _ => none)).2.1 (by decide),
   (C8_amended "Ollama" "vLLM"
      { plan_id := none, plan_text := none, tasks := [], research_id := none,
        research_text := some "findings", synthesis_text := none, infographic := none }
      "Report text" (fun _ => none)).2.2.1 (by decide)⟩

/-- C10: on a backend fault both synthesize_report implementations return
the empty string, a different sentinel from the None (here Except.ok none)
returned by both create_plan implementations and by the stateful-chain
execute_research; the empty string is not None, so an is-None test misses a
failed synthesis; and the driver detects the failure only through string
falsiness: on an empty synthesis the report handler leaves synthesis_text
unchanged and surfaces the Synthesis failed message. -/
theorem C10_theorem :
    (∀ e, GeminiClient.synthesize_report (.error e) = "") ∧
    (∀ e, OpenAICompatibleClient.synthesize_report (.error e) = "") ∧
    (∀ e, GeminiClient.create_plan (.error e) = .ok none) ∧
    (∀ e get, GeminiClient.execute_research (.error e) get = .ok none) ∧
    (∀ e, OpenAICompatibleClient.create_plan (.error e) = .ok none) ∧
    (some "" ≠ (none : Option String)) ∧
    (∀ p st info, (reportHandler p st "" info).1.synthesis_text = st.synthesis_text ∧
      "Synthesis failed" ∈ (reportHandler p st "" info).2) := by
  refine ⟨fun _ => rfl, fun _ => rfl, fun _ => rfl, fun _ _ => rfl, fun _ => rfl,
    by simp, ?_⟩
  intro p st info
  have hsyn : ¬ ("" : String).length > 0 := by decide
  simp only [reportHandler, if_neg hsyn]
  cases hinfo : info st.synthesis_text with
  | some b => simp only [hinfo]; exact ⟨trivial, by simp⟩
  | none => simp only [hinfo]; exact ⟨trivial, by simp⟩

/-- A trailing occurrence is a substring. -/
theorem containsSub_append (needle : List Char) :
    ∀ a : List Char, containsSub needle (a ++ needle) = true := by
  intro a
  induction a with
  | nil =>
    cases needle with
    | nil => rfl
    | cons c t =>
      simp only [List.nil_append, containsSub, List.isPrefixOf_iff_prefix, Bool.or_eq_true,
        decide_eq_true_eq]
      exact Or.inl (List.prefix_refl _)
  | cons x xs ih =>
    simp [containsSub, ih]

/-- A trailing occurrence is a substring (string form). -/
theorem strContains_append_right (a s : String) : strContains (a ++ s) s = true := by
  unfold strContains
  rw [String.data_append]
  exact containsSub_append s.data a.data

/-- When every poll reports in_progress, the polling loop runs its full
iteration budget and returns the final fresh get. -/
theorem waitLoopAux_inprogress (f : Nat → Interaction)
    (h : ∀ j, (f j).status = "in_progress") (t : Nat) :
    ∀ n k, ∃ ps, GeminiClient.waitLoopAux (GeminiClient.pureGet f) t n k =
      .ok (f (k + n), ps) := by
  intro n
  induction n with
  | zero => intro k; exact ⟨[], rfl⟩
  | succ n ih =>
    intro k
    obtain ⟨ps, hps⟩ := ih (k + 1)
    refine ⟨min 90 (3 * (k + 1) * 100 / t) :: ps, ?_⟩
    simp only [GeminiClient.waitLoopAux, GeminiClient.pureGet]
    rw [if_pos (h k), hps]
    simp only [Except.map]
    have e : k + 1 + n = k + (n + 1) := by omega
    rw [e]

set_option maxRecDepth 8000 in
/-- C4: the claim asserts that on a poll that never leaves in_progress the
result text contains the literal last-known status.  The source prefers the
output text and falls back to the status string only when that text is
empty: when the timed-out interaction carries nonempty output text, that
text is returned and the status string does not occur in it. -/
theorem C4_counterexample :
    GeminiClient.execute_research
      (.ok { id := "start", status := "in_progress", outputs := [] })
      (GeminiClient.pureGet fun _ =>
        { id := "id1", status := "in_progress", outputs := [some "partial text"] }) =
      .ok (some { id := some "id1", text := "partial text" }) ∧
    strContains "partial text" "in_progress" = false :=
  ⟨rfl, rfl⟩

/-- C4 amended: when no poll within the 300-unit budget (3-unit interval, so
100 polls, indices 0 through 99) leaves in_progress, execute_research still
returns (total, no exception), carrying the interaction observed by the one
final get after the loop (poll index 100); its text is the output text of
that interaction when nonempty, and otherwise the literal
Status: (last-known status) string, which contains the status verbatim. -/
theorem C4_amended (f : Nat → Interaction) (i0 : Interaction)
    (h : ∀ k, (f k).status = "in_progress") :
    ∃ r, GeminiClient.execute_research (.ok i0) (GeminiClient.pureGet f) =
        .ok (some r) ∧
      r.id = some (f 100).id ∧
      r.text = (if get_text (f 100).outputs = "" then "Status: " ++ (f 100).status
                else get_text (f 100).outputs) ∧
      (get_text (f 100).outputs = "" →
        strContains r.text ((f 100).status) = true) := by
  obtain ⟨ps, hps⟩ := waitLoopAux_inprogress f h 300 100 0
  have hps2 : GeminiClient.waitLoopAux (GeminiClient.pureGet f) 300 100 0 =
      .ok (f 100, ps) := by simpa using hps
  refine ⟨{ id := some (f 100).id,
            text := if get_text (f 100).outputs = "" then "Status: " ++ (f 100).status
                    else get_text (f 100).outputs }, ?_, rfl, rfl, ?_⟩
  · simp only [GeminiClient.execute_research, GeminiClient.wait_for_completion]
    rw [show ((300 + 2) / 3 : Nat) = 100 from by norm_num, hps2]
  · intro hempty
    rw [if_pos hempty]
    exact strContains_append_right "Status: " ((f 100).status)

/-- C4 witness: the amended theorem at a backend that always reports
in_progress with no outputs: the call returns with the text
Status: in_progress. -/
theorem C4_witness :
    ∃ r, GeminiClient.execute_research
        (.ok { id := "start", status := "in_progress", outputs := [] })
        (GeminiClient.pureGet fun _ =>
          { id := "idw", status := "in_progress", outputs := [] }) = .ok (some r) ∧
      r.id = some "idw" ∧
      r.text = (if get_text [] = "" then "Status: " ++ "in_progress" else get_text []) ∧
      (get_text [] = "" → strContains r.text "in_progress" = true) :=
  C4_amended (fun _ => { id := "idw", status := "in_progress", outputs := [] })
    { id := "start", status := "in_progress", outputs := [] } (fun _ => rfl)

/-- The invariant of the polling loop: starting at poll index k with the
previously shown bar value min 90 (3 k 100 / 300), the reported values form
a non-decreasing chain, stay at or below 90 except for a terminal 100, and
contain 100 exactly when some poll in the window leaves in_progress. -/
theorem waitLoop_chain (f : Nat → Interaction) :
    ∀ n k res ps,
      GeminiClient.waitLoopAux (GeminiClient.pureGet f) 300 n k = .ok (res, ps) →
      List.Chain' (· ≤ ·) (min 90 (3 * k * 100 / 300) :: ps) ∧
      (∀ p ∈ ps, p ≤ 90 ∨ p = 100) ∧
      ((100 ∈ ps) ↔ ∃ j, k ≤ j ∧ j < k + n ∧ (f j).status ≠ "in_progress") := by
  intro n
  induction n with
  | zero =>
    intro k res ps h
    simp only [GeminiClient.waitLoopAux, GeminiClient.pureGet, Except.map] at h
    injection h with h1
    injection h1 with h2 h3
    subst h3
    refine ⟨List.chain'_singleton _, by simp, ?_⟩
    constructor
    · intro h100; simp at h100
    · rintro ⟨j, hj1, hj2, -⟩; omega
  | succ n ih =>
    intro k res ps h
    simp only [GeminiClient.waitLoopAux, GeminiClient.pureGet] at h
    by_cases hst : (f k).status = "in_progress"
    · rw [if_pos hst] at h
      cases hrec : GeminiClient.waitLoopAux (GeminiClient.pureGet f) 300 n (k + 1) with
      | error e => rw [hrec] at h; simp [Except.map] at h
      | ok q =>
        obtain ⟨res2, ps2⟩ := q
        rw [hrec] at h
        simp only [Except.map] at h
        injection h with h1
        injection h1 with h2 h3
        subst h3
        obtain ⟨ihc, ihb, ihm⟩ := ih (k + 1) res2 ps2 hrec
        have hmono : min 90 (3 * k * 100 / 300) ≤ min 90 (3 * (k + 1) * 100 / 300) :=
          min_le_min le_rfl (Nat.div_le_div_right (by omega))
        refine ⟨List.chain'_cons.mpr ⟨hmono, ihc⟩, ?_, ?_⟩
        · intro x hx
          rcases List.mem_cons.mp hx with hx | hx
          · exact Or.inl (hx ▸ min_le_left _ _)
          · exact ihb x hx
        · have hp90 : min 90 (3 * (k + 1) * 100 / 300) ≤ 90 := min_le_left _ _
          constructor
          · intro hmem
            rcases List.mem_cons.mp hmem with hx | hx
            · omega
            · obtain ⟨j, hj1, hj2, hjs⟩ := ihm.mp hx
              exact ⟨j, by omega, by omega, hjs⟩
          · rintro ⟨j, hj1, hj2, hjs⟩
            have hjk : j ≠ k := fun hjk => hjs (hjk ▸ hst)
            have : 100 ∈ ps2 := ihm.mpr ⟨j, by omega, by omega, hjs⟩
            exact List.mem_cons_of_mem _ this
    · rw [if_neg hst] at h
      injection h with h1
      injection h1 with h2 h3
      subst h3
      refine ⟨List.chain'_cons.mpr
        ⟨le_trans (min_le_left _ _) (by omega), List.chain'_singleton _⟩, by simp, ?_⟩
      constructor
      · intro _; exact ⟨k, le_rfl, by omega, hst⟩
      · intro _; simp

/-- C6: in the stateful-chain polling loop the reported progress sequence
(starting from the initial 0 the bar is created with) is monotonically
non-decreasing, stays at or below 90 while polls report in_progress, and
100 is reported exactly when some poll within the 300-unit budget observes
a status other than in_progress (confirmed completion). -/
theorem C6_theorem (f : Nat → Interaction) (res : Interaction) (ps : List Nat)
    (h : GeminiClient.wait_for_completion (GeminiClient.pureGet f) 300 = .ok (res, ps)) :
    List.Chain' (· ≤ ·) (0 :: ps) ∧
    (∀ p ∈ ps, p ≤ 90 ∨ p = 100) ∧
    ((100 ∈ ps) ↔ ∃ j, 3 * j < 300 ∧ (f j).status ≠ "in_progress") := by
  have h2 : GeminiClient.waitLoopAux (GeminiClient.pureGet f) 300 100 0 = .ok (res, ps) := by
    simp only [GeminiClient.wait_for_completion] at h
    rw [show ((300 + 2) / 3 : Nat) = 100 from by norm_num] at h
    exact h
  obtain ⟨hc, hb, hm⟩ := waitLoop_chain f 100 0 res ps h2
  have h0 : min 90 (3 * 0 * 100 / 300) = 0 := by norm_num
  rw [h0] at hc
  refine ⟨hc, hb, ?_⟩
  rw [hm]
  constructor
  · rintro ⟨j, -, hj2, hjs⟩; exact ⟨j, by omega, hjs⟩
  · rintro ⟨j, hj1, hjs⟩; exact ⟨j, by omega, by omega, hjs⟩

/-- C6 witness: a backend completing at the third poll reports 1, 2 and then
100; the theorem instantiates to that trace. -/
theorem C6_witness :
    List.Chain' (· ≤ ·) (0 :: [1, 2, 100]) ∧
    (∀ p ∈ [1, 2, 100], p ≤ 90 ∨ p = 100) ∧
    ((100 ∈ [1, 2, 100]) ↔ ∃ j, 3 * j < 300 ∧
      ((fun k => if k < 2 then ({ id := "i", status := "in_progress", outputs := [] } : Interaction)
                 else { id := "i", status := "completed", outputs := [] }) j).status ≠
        "in_progress") :=
  C6_theorem
    (fun k => if k < 2 then { id := "i", status := "in_progress", outputs := [] }
              else { id := "i", status := "completed", outputs := [] })
    { id := "i", status := "completed", outputs := [] } [1, 2, 100] rfl

/-! ### Parser lemmas -/

/-- A separator character is not a digit. -/
theorem sep_not_digit {c : Char} (h : isSep c = true) : c.isDigit = false := by
  simp only [isSep, Bool.or_eq_true, beq_iff_eq] at h
  rcases h with (h | h) | h <;> subst h <;> rfl

/-- One-step unfolding of the body group. -/
theorem takeBody_cons (c : Char) (rest : List Char) :
    takeBody (c :: rest) =
      if lookahead rest then ([c], rest)
      else (c :: (takeBody rest).1, (takeBody rest).2) := rfl

/-- takeWhile stops exactly at the first failing character. -/
theorem takeWhile_append_stop (p : Char → Bool) :
    ∀ (n : List Char) (c : Char) (r : List Char), (∀ x ∈ n, p x = true) → p c = false →
      (n ++ c :: r).takeWhile p = n := by
  intro n
  induction n with
  | nil => intro c r _ hc; simp [List.takeWhile_cons, hc]
  | cons a n ih =>
    intro c r hall hc
    simp only [List.cons_append, List.takeWhile_cons, hall a (List.mem_cons_self a n),
      if_true]
    rw [ih c r (fun x hx => hall x (List.mem_cons_of_mem a hx)) hc]

/-- The lookahead fails on a suffix that does not start with a newline. -/
theorem lookahead_cons_ne {c : Char} (h : c ≠ '\n') (l : List Char) :
    lookahead (c :: l) = false := by
  simp only [lookahead, List.isEmpty_cons, nextTaskLine, Bool.false_or]
  simp [beq_eq_false_iff_ne.mpr h]

/-- The lookahead fails on a newline followed by a character that is neither
a newline nor a digit. -/
theorem lookahead_nl_false (h : Char) (t : List Char) (hn : h ≠ '\n')
    (hd : h.isDigit = false) : lookahead ('\n' :: h :: t) = false := by
  simp only [lookahead, List.isEmpty_cons, nextTaskLine, Bool.false_or]
  have h1 : (h == '\n') = false := beq_eq_false_iff_ne.mpr hn
  have h2 : (h :: t).takeWhile Char.isDigit = [] := by
    simp [List.takeWhile_cons, hd]
  simp [h1, h2]

/-- The body group consumes a newline-free nonempty block exactly up to a
suffix satisfying the lookahead. -/
theorem takeBody_all :
    ∀ (d : List Char), d ≠ [] → (∀ x ∈ d, x ≠ '\n') →
      ∀ r, lookahead r = true → takeBody (d ++ r) = (d, r) := by
  intro d
  induction d with
  | nil => intro h; exact absurd rfl h
  | cons c d ih =>
    intro _ hnl r hr
    cases d with
    | nil =>
      simp only [List.cons_append, List.nil_append]
      rw [takeBody_cons, if_pos hr]
    | cons e d2 =>
      have hla : lookahead (e :: (d2 ++ r)) = false :=
        lookahead_cons_ne (hnl e (by simp)) _
      have ihe : takeBody (e :: (d2 ++ r)) = (e :: d2, r) := by
        have := ih (by simp) (fun x hx => hnl x (List.mem_cons_of_mem c hx)) r hr
        simpa using this
      simp only [List.cons_append]
      rw [takeBody_cons, if_neg (by simp [hla]), ihe]

/-- The body group runs through a single newline when the following
character is neither a newline nor a digit, and on to the end of input. -/
theorem takeBody_chain :
    ∀ (d1 : List Char), (∀ x ∈ d1, x ≠ '\n') →
      ∀ (h : Char) (t : List Char), h ≠ '\n' → h.isDigit = false →
        (∀ x ∈ h :: t, x ≠ '\n') →
        takeBody (d1 ++ '\n' :: h :: t) = (d1 ++ '\n' :: h :: t, []) := by
  intro d1
  induction d1 with
  | nil =>
    intro _ h t hn hd hnl
    have hbody : takeBody (h :: t) = (h :: t, []) := by
      have := takeBody_all (h :: t) (by simp) hnl [] rfl
      simpa using this
    simp only [List.nil_append]
    rw [takeBody_cons, if_neg (by simp [lookahead_cons_ne hn t]), hbody]
  | cons c d1 ih =>
    intro hnl1 h t hn hd hnl
    have hla : lookahead (d1 ++ '\n' :: h :: t) = false := by
      cases d1 with
      | nil => simpa using lookahead_nl_false h t hn hd
      | cons e d2 =>
        have := lookahead_cons_ne (hnl1 e (by simp)) (d2 ++ '\n' :: h :: t)
        simpa using this
    simp only [List.cons_append]
    rw [takeBody_cons, if_neg (by simp [hla]),
      ih (fun x hx => hnl1 x (List.mem_cons_of_mem c hx)) h t hn hd hnl]

/-- Unpacking a well-formed ordinal. -/
theorem wfNum_parts {n : List Char} (h : wfNum n = true) :
    n ≠ [] ∧ (∀ x ∈ n, Char.isDigit x = true) := by
  simp only [wfNum, Bool.and_eq_true] at h
  obtain ⟨h1, h2⟩ := h
  exact ⟨by simpa using h1, by simpa using List.all_eq_true.mp h2⟩

/-- Unpacking a well-formed description. -/
theorem wfDesc_parts {d : List Char} (h : wfDesc d = true) :
    d ≠ [] ∧ (∀ x ∈ d, x ≠ '\n') ∧
    (∀ c, d.head? = some c → pySpace c = false) ∧
    (∀ c, d.getLast? = some c → pySpace c = false) := by
  simp only [wfDesc, Bool.and_eq_true] at h
  obtain ⟨⟨⟨h1, h2⟩, h3⟩, h4⟩ := h
  refine ⟨by simpa using h1, ?_, ?_, ?_⟩
  · intro x hx
    have := List.all_eq_true.mp h2 x hx
    simpa using this
  · intro c hc
    rw [hc] at h3
    simpa using h3
  · intro c hc
    rw [hc] at h4
    simpa using h4

/-- The pattern matches at a rendered task head: a well-formed ordinal, a
separator, one space, then any block b that the body group consumes exactly
(leaving r), provided b does not start with whitespace.  The match returns
the ordinal verbatim, the block as the raw body, and resumes at r. -/
theorem tryMatch_render_gen (n : List Char) (sep : Char) (b r : List Char)
    (hn : wfNum n = true) (hs : isSep sep = true) (hbne : b ≠ [])
    (hbhead : ∀ c, b.head? = some c → pySpace c = false)
    (htb : takeBody (b ++ r) = (b, r)) :
    tryMatch (n ++ sep :: ' ' :: (b ++ r)) = some (n, b, r) := by
  obtain ⟨hne, hdig⟩ := wfNum_parts hn
  obtain ⟨bh, bt, rfl⟩ := List.exists_cons_of_ne_nil hbne
  have htw : (n ++ sep :: ' ' :: (bh :: bt ++ r)).takeWhile Char.isDigit = n :=
    takeWhile_append_stop _ n sep _ hdig (sep_not_digit hs)
  have hnE : n.isEmpty = false := by
    cases n with
    | nil => exact absurd rfl hne
    | cons a l => rfl
  have hdrop : (n ++ sep :: ' ' :: (bh :: bt ++ r)).drop n.length =
      sep :: ' ' :: (bh :: bt ++ r) := List.drop_left n _
  have hbh : pySpace bh = false := hbhead bh rfl
  have hsp : pySpace ' ' = true := rfl
  have hwh : (' ' :: (bh :: bt ++ r)).takeWhile pySpace = [' '] := by
    simp [List.takeWhile_cons, hbh, hsp]
  have hcond : ((([' '] : List Char)).length == (' ' :: (bh :: bt ++ r)).length) = false := by
    rw [beq_eq_false_iff_ne]
    simp only [List.length_cons, List.length_append, List.length_nil]
    omega
  simp only [tryMatch, htw, hnE, Bool.false_eq_true, if_false, hdrop, hs, if_true,
    List.isEmpty_cons, hwh, hcond]
  rw [show (([' '] : List Char)).length = 1 from rfl]
  rw [show List.drop 1 (' ' :: (bh :: bt ++ r)) = bh :: bt ++ r from rfl]
  rw [htb]

/-- The scan returns nothing on empty input. -/
theorem scanAux_nil (fuel : Nat) (b : Bool) : scanAux fuel b [] = [] := by
  cases fuel <;> rfl

/-- One scan step at a line start with a successful match. -/
theorem scanAux_cons_some {c : Char} {s num body r : List Char}
    (h : tryMatch (c :: s) = some (num, body, r)) (fuel : Nat) :
    scanAux (fuel + 1) true (c :: s) =
      (num, body) :: scanAux fuel (body.getLast? == some '\n') r := by
  simp only [scanAux, h, if_true]

/-- One scan step at a line start with no match: advance one character. -/
theorem scanAux_cons_none {c : Char} {s : List Char}
    (h : tryMatch (c :: s) = none) (fuel : Nat) :
    scanAux (fuel + 1) true (c :: s) = scanAux fuel (c == '\n') s := by
  simp only [scanAux, h, if_true]

/-- One scan step away from a line start: advance one character. -/
theorem scanAux_cons_false (c : Char) (s : List Char) (fuel : Nat) :
    scanAux (fuel + 1) false (c :: s) = scanAux fuel (c == '\n') s := by
  simp only [scanAux, Bool.false_eq_true, if_false]

/-- The pattern cannot match where no ordinal-separator head is present. -/
theorem tryMatch_none {l : List Char} (h : ordinalStart l = false) :
    tryMatch l = none := by
  simp only [ordinalStart] at h
  by_cases h1 : (l.takeWhile Char.isDigit).isEmpty
  · simp only [tryMatch, h1, if_true]
  · have h1f : (l.takeWhile Char.isDigit).isEmpty = false := by simpa using h1
    rw [h1f] at h
    simp only [Bool.not_false, Bool.true_and] at h
    simp only [tryMatch, h1f, Bool.false_eq_true, if_false]
    cases hd : l.drop (l.takeWhile Char.isDigit).length with
    | nil => rfl
    | cons c t =>
      rw [hd] at h
      replace h : (isSep c && !t.isEmpty) = false := h
      by_cases hsep : isSep c = true
      · rw [hsep, Bool.true_and] at h
        have ht : t.isEmpty = true := by simpa using h
        simp [hsep, ht]
      · have hsf : isSep c = false := by simpa using hsep
        simp [hsf]

/-- Away from any line start, newline-free input can never match again. -/
theorem scanAux_false_no_nl :
    ∀ (s : List Char), (∀ x ∈ s, x ≠ '\n') → ∀ fuel, scanAux fuel false s = [] := by
  intro s
  induction s with
  | nil => intro _ fuel; exact scanAux_nil fuel false
  | cons c t ih =>
    intro hnl fuel
    cases fuel with
    | zero => rfl
    | succ f =>
      rw [scanAux_cons_false]
      rw [beq_eq_false_iff_ne.mpr (hnl c (List.mem_cons_self c t))]
      exact ih (fun x hx => hnl x (List.mem_cons_of_mem c hx)) f

/-- The newline-replacement step never outputs a newline. -/
theorem nl2sp_ne (a : Char) : nl2sp a ≠ '\n' := by
  unfold nl2sp
  by_cases h : a = '\n'
  · simp [h]
  · simp [h]

/-- C9: the claim asserts that re-parsing any previously parsed description
yields zero tasks, on the stated ground that descriptions carry no ordinal
prefixes.  But a description can itself begin with an ordinal-separator
head: parsing the plan text below yields the description 2.Foo, and
re-parsing that description yields a (different) task, not zero tasks. -/
theorem C9_counterexample :
    parse_tasks "1. 2.Foo" = [{ num := "1", text := "2.Foo" }] ∧
    parse_tasks "2.Foo" = [{ num := "2", text := "Foo" }] := ⟨rfl, rfl⟩

/-- C9 amended: every parsed description is newline-free (newlines are
replaced by spaces), and re-parsing any newline-free string that does not
itself begin with a numeric ordinal followed by a separator and at least one
further character yields the empty task list; under the original claim
qualification that the description carries no ordinal prefix, re-parsing is
therefore self-quenching. -/
theorem C9_amended :
    (∀ (t : String) (task : Task), task ∈ parse_tasks t → ∀ x ∈ task.text.data, x ≠ '\n') ∧
    (∀ s : String, (∀ x ∈ s.data, x ≠ '\n') → ordinalStart s.data = false →
      parse_tasks s = []) := by
  constructor
  · intro t task htask x hx
    simp only [parse_tasks, List.mem_map] at htask
    obtain ⟨p, hp, hq⟩ := htask
    have hdata : task.text.data = (stripChars p.2).map nl2sp := by
      rw [← hq]
    rw [hdata] at hx
    obtain ⟨a, ha, rfl⟩ := List.mem_map.mp hx
    exact nl2sp_ne a
  · intro s hnl hord
    unfold parse_tasks
    cases hs : s.data with
    | nil => rfl
    | cons c t =>
      simp only [List.length_cons]
      rw [scanAux_cons_none (tryMatch_none (hs ▸ hord)) t.length]
      rw [beq_eq_false_iff_ne.mpr (hnl c (hs ▸ List.mem_cons_self c t))]
      rw [scanAux_false_no_nl t (fun x hx => hnl x (hs ▸ List.mem_cons_of_mem c hx)) t.length]
      rfl

/-- C9 witness: a concrete parse whose description is ordinal-free; the
amended theorem applied to it yields the empty re-parse. -/
theorem C9_witness :
    parse_tasks "1. Alpha beta" = [{ num := "1", text := "Alpha beta" }] ∧
    parse_tasks "Alpha beta" = [] :=
  ⟨rfl, C9_amended.2 "Alpha beta" (by decide) (by decide)⟩

/-- Unpacking a well-formed rendered task. -/
theorem wfTask_parts {x : List Char × Char × List Char} (h : wfTask x = true) :
    wfNum x.1 = true ∧ isSep x.2.1 = true ∧ wfDesc x.2.2 = true := by
  simp only [wfTask, Bool.and_eq_true] at h
  exact ⟨h.1.1, h.1.2, h.2⟩

/-- A digit is not a newline. -/
theorem digit_ne_nl {c : Char} (h : c.isDigit = true) : c ≠ '\n' := by
  intro hq
  subst hq
  exact absurd h (by decide)

/-- The rendered tail of a nonempty plan starts with its first ordinal and
separator. -/
theorem renderPlan_cons_shape (y : List Char × Char × List Char)
    (l : List (List Char × Char × List Char)) :
    ∃ rr, renderPlan (y :: l) = y.1 ++ y.2.1 :: rr := by
  cases l with
  | nil => exact ⟨' ' :: y.2.2, rfl⟩
  | cons z zs =>
    refine ⟨' ' :: y.2.2 ++ '\n' :: renderPlan (z :: zs), ?_⟩
    simp [renderPlan, renderTask, List.cons_append, List.append_assoc]

/-- The lookahead succeeds at a newline followed by a rendered task head. -/
theorem lookahead_render (n : List Char) (sep : Char) (rr : List Char)
    (hn : wfNum n = true) (hs : isSep sep = true) :
    lookahead ('\n' :: (n ++ sep :: rr)) = true := by
  obtain ⟨hne, hdig⟩ := wfNum_parts hn
  obtain ⟨n0, ntl, rfl⟩ := List.exists_cons_of_ne_nil hne
  have htw : ((n0 :: ntl) ++ sep :: rr).takeWhile Char.isDigit = n0 :: ntl :=
    takeWhile_append_stop _ _ _ _ hdig (sep_not_digit hs)
  have hdrop : ((n0 :: ntl) ++ sep :: rr).drop (n0 :: ntl).length = sep :: rr :=
    List.drop_left _ _
  have htw2 : (n0 :: (ntl ++ sep :: rr)).takeWhile Char.isDigit = n0 :: ntl := by
    simp only [← List.cons_append]
    exact htw
  have hdrop2 : (n0 :: (ntl ++ sep :: rr)).drop (n0 :: ntl).length = sep :: rr := by
    simp only [← List.cons_append]
    exact hdrop
  simp only [lookahead, List.isEmpty_cons, nextTaskLine, Bool.false_or, List.cons_append]
  simp [htw2, hdrop2, hs]

/-- The resume flag after a match whose body has no newline is false. -/
theorem body_flag_false {d : List Char} (hne : d ≠ []) (hnl : ∀ x ∈ d, x ≠ '\n') :
    (d.getLast? == some '\n') = false := by
  rw [List.getLast?_eq_getLast d hne, beq_eq_false_iff_ne]
  intro hcontra
  have hmem := hnl (d.getLast hne) (List.getLast_mem hne)
  exact hmem (Option.some.inj hcontra)

/-- Scanning a rendered well-formed plan yields exactly its tasks: ordinals
verbatim and raw bodies equal to the rendered descriptions, in plan order. -/
theorem scan_render :
    ∀ (l : List (List Char × Char × List Char)), (∀ x ∈ l, wfTask x = true) →
      ∀ fuel, (renderPlan l).length ≤ fuel →
        scanAux fuel true (renderPlan l) = l.map (fun x => (x.1, x.2.2)) := by
  intro l
  induction l with
  | nil => intro _ fuel _; exact scanAux_nil fuel true
  | cons x xs ih =>
    intro hwf fuel hfuel
    obtain ⟨hn, hs, hd⟩ := wfTask_parts (hwf x (List.mem_cons_self x xs))
    obtain ⟨hdne, hdnl, hdhead, hdlast⟩ := wfDesc_parts hd
    obtain ⟨n0, ntl, hnx⟩ := List.exists_cons_of_ne_nil (wfNum_parts hn).1
    cases xs with
    | nil =>
      have htb : takeBody (x.2.2 ++ []) = (x.2.2, []) := takeBody_all x.2.2 hdne hdnl [] rfl
      have htm := tryMatch_render_gen x.1 x.2.1 x.2.2 [] hn hs hdne hdhead htb
      have hshape : renderPlan [x] = n0 :: (ntl ++ x.2.1 :: ' ' :: (x.2.2 ++ [])) := by
        simp [renderPlan, renderTask, hnx]
      have htm2 : tryMatch (n0 :: (ntl ++ x.2.1 :: ' ' :: (x.2.2 ++ []))) =
          some (x.1, x.2.2, []) := by
        have heq : x.1 ++ x.2.1 :: ' ' :: (x.2.2 ++ []) =
            n0 :: (ntl ++ x.2.1 :: ' ' :: (x.2.2 ++ [])) := by simp [hnx]
        rw [heq] at htm
        exact htm
      have hpos : 0 < (renderPlan [x]).length := by
        rw [hshape]; simp
      obtain ⟨f, rfl⟩ : ∃ f, fuel = f + 1 := ⟨fuel - 1, by omega⟩
      rw [hshape, scanAux_cons_some htm2 f, scanAux_nil]
      rfl
    | cons y ys =>
      have hy := wfTask_parts (hwf y (by simp))
      have hla : lookahead ('\n' :: renderPlan (y :: ys)) = true := by
        obtain ⟨rr, hrr⟩ := renderPlan_cons_shape y ys
        rw [hrr]
        exact lookahead_render y.1 y.2.1 rr hy.1 hy.2.1
      have htb : takeBody (x.2.2 ++ '\n' :: renderPlan (y :: ys)) =
          (x.2.2, '\n' :: renderPlan (y :: ys)) := takeBody_all x.2.2 hdne hdnl _ hla
      have htm := tryMatch_render_gen x.1 x.2.1 x.2.2 ('\n' :: renderPlan (y :: ys))
        hn hs hdne hdhead htb
      have hshape : renderPlan (x :: y :: ys) =
          n0 :: (ntl ++ x.2.1 :: ' ' :: (x.2.2 ++ '\n' :: renderPlan (y :: ys))) := by
        simp [renderPlan, renderTask, hnx, List.cons_append, List.append_assoc]
      have htm2 : tryMatch (n0 :: (ntl ++ x.2.1 :: ' ' ::
          (x.2.2 ++ '\n' :: renderPlan (y :: ys)))) =
          some (x.1, x.2.2, '\n' :: renderPlan (y :: ys)) := by
        have heq : x.1 ++ x.2.1 :: ' ' :: (x.2.2 ++ '\n' :: renderPlan (y :: ys)) =
            n0 :: (ntl ++ x.2.1 :: ' ' :: (x.2.2 ++ '\n' :: renderPlan (y :: ys))) := by
          simp [hnx]
        rw [heq] at htm
        exact htm
      have hlen1 : (renderPlan (x :: y :: ys)).length =
          (renderTask x).length + 1 + (renderPlan (y :: ys)).length := by
        simp only [renderPlan, List.length_append, List.length_cons]
        omega
      have hrt : 1 ≤ (renderTask x).length := by
        simp [renderTask, hnx]
      obtain ⟨f, rfl⟩ : ∃ f, fuel = f + 1 := ⟨fuel - 1, by omega⟩
      obtain ⟨f2, rfl⟩ : ∃ f2, f = f2 + 1 := ⟨f - 1, by omega⟩
      rw [hshape, scanAux_cons_some htm2 (f2 + 1), body_flag_false hdne hdnl,
        scanAux_cons_false, show (('\n' : Char) == '\n') = true from rfl]
      rw [ih (fun z hz => hwf z (List.mem_cons_of_mem x hz)) f2 (by omega)]
      rfl

/-- strip is the identity on a block with non-whitespace first and last
characters. -/
theorem stripChars_eq_self {d : List Char} (hne : d ≠ [])
    (hhead : ∀ c, d.head? = some c → pySpace c = false)
    (hlast : ∀ c, d.getLast? = some c → pySpace c = false) :
    stripChars d = d := by
  obtain ⟨c, t, rfl⟩ := List.exists_cons_of_ne_nil hne
  have h1 : pySpace c = false := hhead c rfl
  have hdw : (c :: t).dropWhile pySpace = c :: t := by
    simp [List.dropWhile_cons, h1]
  unfold stripChars
  rw [hdw]
  have hrne : (c :: t).reverse ≠ [] := by simp
  obtain ⟨z, zs, hz⟩ := List.exists_cons_of_ne_nil hrne
  have hzlast : (c :: t).getLast? = some z := by
    rw [← List.head?_reverse, hz]
    rfl
  have h2 : pySpace z = false := hlast z hzlast
  rw [hz]
  simp only [List.dropWhile_cons, h2, Bool.false_eq_true, if_false]
  rw [← hz, List.reverse_reverse]

/-- Newline replacement is the identity on newline-free text. -/
theorem map_nl2sp_eq_self {d : List Char} (hnl : ∀ x ∈ d, x ≠ '\n') :
    d.map nl2sp = d := by
  induction d with
  | nil => rfl
  | cons c t ih =>
    simp only [List.map_cons]
    rw [show nl2sp c = c from by unfold nl2sp; simp [hnl c (List.mem_cons_self c t)]]
    rw [ih (fun x hx => hnl x (List.mem_cons_of_mem c hx))]

/-- Round trip: parsing a rendered well-formed plan returns exactly its
tasks, ordinals verbatim, descriptions unchanged, in plan order. -/
theorem parse_render (l : List (List Char × Char × List Char))
    (hwf : ∀ x ∈ l, wfTask x = true) :
    parse_tasks (String.mk (renderPlan l)) =
      l.map (fun x => ({ num := String.mk x.1, text := String.mk x.2.2 } : Task)) := by
  unfold parse_tasks
  rw [show (String.mk (renderPlan l)).data = renderPlan l from rfl]
  rw [scan_render l hwf _ le_rfl]
  rw [List.map_map]
  apply List.map_congr_left
  intro x hx
  obtain ⟨-, -, hd⟩ := wfTask_parts (hwf x hx)
  obtain ⟨hdne, hdnl, hdh, hdl⟩ := wfDesc_parts hd
  simp only [Function.comp]
  rw [stripChars_eq_self hdne hdh hdl, map_nl2sp_eq_self hdnl]

/-- Scanning at a line start over text whose characters are neither digits
nor newlines finds nothing. -/
theorem scanAux_true_tail :
    ∀ (u : List Char), u.all (fun c => !(c == '\n') && !c.isDigit) = true →
      ∀ fuel, scanAux fuel true u = [] := by
  intro u hu fuel
  cases u with
  | nil => exact scanAux_nil fuel true
  | cons c t =>
    cases fuel with
    | zero => rfl
    | succ f =>
      have hc := List.all_eq_true.mp hu c (List.mem_cons_self c t)
      simp only [Bool.and_eq_true, Bool.not_eq_true', beq_eq_false_iff_ne] at hc
      have hord : ordinalStart (c :: t) = false := by
        simp [ordinalStart, List.takeWhile_cons, hc.2]
      rw [scanAux_cons_none (tryMatch_none hord) f,
        beq_eq_false_iff_ne.mpr hc.1]
      refine scanAux_false_no_nl t ?_ f
      intro x hx
      have := List.all_eq_true.mp hu x (List.mem_cons_of_mem c hx)
      simp only [Bool.and_eq_true, Bool.not_eq_true', beq_eq_false_iff_ne] at this
      exact this.1

/-- Resuming after a match right before a blank line followed by digit-free
newline-free trailing text finds nothing further. -/
theorem scanAux_after_blank :
    ∀ (fuel : Nat) (u : List Char), 2 ≤ fuel →
      u.all (fun c => !(c == '\n') && !c.isDigit) = true →
      scanAux fuel false ('\n' :: '\n' :: u) = [] := by
  intro fuel u hfuel hu
  obtain ⟨g, rfl⟩ : ∃ g, fuel = g + 1 := ⟨fuel - 1, by omega⟩
  obtain ⟨g2, rfl⟩ : ∃ g2, g = g2 + 1 := ⟨g - 1, by omega⟩
  rw [scanAux_cons_false, show (('\n' : Char) == '\n') = true from rfl]
  have hord : ordinalStart ('\n' :: u) = false := by
    simp [ordinalStart, List.takeWhile_cons]
  rw [scanAux_cons_none (tryMatch_none hord) g2,
    show (('\n' : Char) == '\n') = true from rfl]
  exact scanAux_true_tail u hu g2

/-- A blank line terminates the task body even when digit-free text follows:
the single task parsed carries exactly the description before the blank
line. -/
theorem parse_blank (n : List Char) (sep : Char) (d u : List Char)
    (hn : wfNum n = true) (hs : isSep sep = true) (hd : wfDesc d = true)
    (hu : u.all (fun c => !(c == '\n') && !c.isDigit) = true) :
    parse_tasks (String.mk (n ++ sep :: ' ' :: (d ++ '\n' :: '\n' :: u))) =
      [{ num := String.mk n, text := String.mk d }] := by
  obtain ⟨hdne, hdnl, hdh, hdl⟩ := wfDesc_parts hd
  obtain ⟨n0, ntl, hnx⟩ := List.exists_cons_of_ne_nil (wfNum_parts hn).1
  have hla : lookahead ('\n' :: '\n' :: u) = true := by
    simp [lookahead, nextTaskLine]
  have htb := takeBody_all d hdne hdnl _ hla
  have htm := tryMatch_render_gen n sep d ('\n' :: '\n' :: u) hn hs hdne hdh htb
  have heq : n ++ sep :: ' ' :: (d ++ '\n' :: '\n' :: u) =
      n0 :: (ntl ++ sep :: ' ' :: (d ++ '\n' :: '\n' :: u)) := by simp [hnx]
  rw [heq] at htm
  unfold parse_tasks
  rw [show (String.mk (n ++ sep :: ' ' :: (d ++ '\n' :: '\n' :: u))).data =
    n ++ sep :: ' ' :: (d ++ '\n' :: '\n' :: u) from rfl]
  rw [heq]
  simp only [List.length_cons]
  rw [scanAux_cons_some htm _, body_flag_false hdne hdnl]
  rw [scanAux_after_blank _ u
    (by simp only [List.length_append, List.length_cons]; omega) hu]
  simp only [List.map]
  rw [stripChars_eq_self hdne hdh hdl, map_nl2sp_eq_self hdnl]

/-- A single internal newline (followed by a non-digit line) is part of the
body and is replaced by one space in the parsed description. -/
theorem parse_collapse (n : List Char) (sep : Char) (d1 : List Char)
    (h2 : Char) (t2 : List Char)
    (hn : wfNum n = true) (hs : isSep sep = true) (hd1 : wfDesc d1 = true)
    (hd2 : wfDesc (h2 :: t2) = true) (hh2 : h2.isDigit = false) :
    parse_tasks (String.mk (n ++ sep :: ' ' :: (d1 ++ '\n' :: h2 :: t2))) =
      [{ num := String.mk n, text := String.mk (d1 ++ ' ' :: h2 :: t2) }] := by
  obtain ⟨hd1ne, hd1nl, hd1h, hd1l⟩ := wfDesc_parts hd1
  obtain ⟨-, hd2nl, hd2h, hd2l⟩ := wfDesc_parts hd2
  obtain ⟨n0, ntl, hnx⟩ := List.exists_cons_of_ne_nil (wfNum_parts hn).1
  have hh2nl : h2 ≠ '\n' := hd2nl h2 (List.mem_cons_self h2 t2)
  have htb0 : takeBody (d1 ++ '\n' :: h2 :: t2) = (d1 ++ '\n' :: h2 :: t2, []) :=
    takeBody_chain d1 hd1nl h2 t2 hh2nl hh2 hd2nl
  have htb : takeBody ((d1 ++ '\n' :: h2 :: t2) ++ []) = (d1 ++ '\n' :: h2 :: t2, []) := by
    rw [List.append_nil]
    exact htb0
  obtain ⟨c1, t1, hc1⟩ := List.exists_cons_of_ne_nil hd1ne
  have hbne : d1 ++ '\n' :: h2 :: t2 ≠ [] := by simp [hc1]
  have hbh : ∀ c, (d1 ++ '\n' :: h2 :: t2).head? = some c → pySpace c = false := by
    intro c hc
    rw [hc1] at hc
    simp only [List.cons_append, List.head?_cons, Option.some.injEq] at hc
    subst hc
    exact hd1h c1 (by rw [hc1]; rfl)
  have htm := tryMatch_render_gen n sep (d1 ++ '\n' :: h2 :: t2) [] hn hs hbne hbh htb
  rw [List.append_nil] at htm
  have heq : n ++ sep :: ' ' :: (d1 ++ '\n' :: h2 :: t2) =
      n0 :: (ntl ++ sep :: ' ' :: (d1 ++ '\n' :: h2 :: t2)) := by simp [hnx]
  rw [heq] at htm
  unfold parse_tasks
  rw [show (String.mk (n ++ sep :: ' ' :: (d1 ++ '\n' :: h2 :: t2))).data =
    n ++ sep :: ' ' :: (d1 ++ '\n' :: h2 :: t2) from rfl]
  rw [heq]
  simp only [List.length_cons]
  rw [scanAux_cons_some htm _, scanAux_nil]
  simp only [List.map]
  have hlast : ∀ c, (d1 ++ '\n' :: h2 :: t2).getLast? = some c → pySpace c = false := by
    intro c hc
    rw [List.getLast?_append_cons, List.getLast?_cons_cons] at hc
    exact hd2l c hc
  rw [stripChars_eq_self hbne hbh hlast]
  rw [List.map_append, map_nl2sp_eq_self hd1nl, List.map_cons,
    show nl2sp '\n' = ' ' from rfl, map_nl2sp_eq_self hd2nl]

/-- C5: the claim asserts a task is recognised ONLY when the line-start
ordinal and separator are followed by whitespace.  The whitespace run in the
pattern may be empty: the input 1.Alpha, with no whitespace after the
period, is parsed as a task. -/
theorem C5_counterexample :
    parse_tasks "1.Alpha" = [{ num := "1", text := "Alpha" }] := rfl

/-- C5 amended: parse_tasks recognises a task at a line-start numeric
ordinal followed by a separator (period, parenthesis or hyphen) and
OPTIONAL whitespace (possibly absent, possibly spanning line breaks); each
task body then extends until the next such ordinal line, a blank line, or
end of text; internal newlines are replaced by single spaces; tasks are
returned in match order with ordinals carried verbatim, including gaps and
duplicates.  Formally: (1) parsing any rendered well-formed plan returns
exactly its task list, ordinals verbatim in plan order (in particular with
arbitrary gaps or duplicates); (2) a blank line terminates the body even
when more (digit-free) text follows; (3) a single internal newline before a
non-ordinal line is kept in the body and replaced by a space. -/
theorem C5_amended :
    (∀ l : List (List Char × Char × List Char), (∀ x ∈ l, wfTask x = true) →
      parse_tasks (String.mk (renderPlan l)) =
        l.map (fun x => ({ num := String.mk x.1, text := String.mk x.2.2 } : Task))) ∧
    (∀ n sep d u, wfNum n = true → isSep sep = true → wfDesc d = true →
      u.all (fun c => !(c == '\n') && !c.isDigit) = true →
      parse_tasks (String.mk (n ++ sep :: ' ' :: (d ++ '\n' :: '\n' :: u))) =
        [{ num := String.mk n, text := String.mk d }]) ∧
    (∀ n sep d1 h2 t2, wfNum n = true → isSep sep = true → wfDesc d1 = true →
      wfDesc (h2 :: t2) = true → h2.isDigit = false →
      parse_tasks (String.mk (n ++ sep :: ' ' :: (d1 ++ '\n' :: h2 :: t2))) =
        [{ num := String.mk n, text := String.mk (d1 ++ ' ' :: h2 :: t2) }]) :=
  ⟨parse_render, parse_blank, parse_collapse⟩

/-- C5 witness: the amended theorem at the specification test vector (three
separators), at a blank-line-terminated plan, and at a two-line body. -/
theorem C5_witness :
    parse_tasks (String.mk (renderPlan
        [(['1'], '.', "Alpha task".data), (['2'], ')', "Beta task".data),
         (['3'], '-', "Gamma".data)])) =
      [{ num := "1", text := "Alpha task" }, { num := "2", text := "Beta task" },
       { num := "3", text := "Gamma" }] ∧
    parse_tasks (String.mk (['1'] ++ '.' :: ' ' :: ("Gamma".data ++ '\n' :: '\n' :: "rest of text".data))) =
      [{ num := "1", text := "Gamma" }] ∧
    parse_tasks (String.mk (['1'] ++ '.' :: ' ' :: ("Al".data ++ '\n' :: 'p' :: "ha".data))) =
      [{ num := "1", text := "Al pha" }] :=
  ⟨C5_amended.1 _ (by decide),
   C5_amended.2.1 ['1'] '.' ("Gamma".data) ("rest of text".data)
     (by decide) (by decide) (by decide) (by decide),
   C5_amended.2.2 ['1'] '.' ("Al".data) 'p' ("ha".data)
     (by decide) (by decide) (by decide) (by decide) (by decide)⟩

/-- C7: the claim asserts ordinals are pairwise distinct within one plan.
The parser carries ordinals verbatim: a plan text repeating ordinal 1
parses to two tasks with the same ordinal. -/
theorem C7_counterexample :
    parse_tasks "1. A\n1. B" =
      [{ num := "1", text := "A" }, { num := "1", text := "B" }] ∧
    ¬ ((parse_tasks "1. A\n1. B").map Task.num).Nodup := by
  constructor
  · rfl
  · decide

/-- C7 amended: ordinals are carried through verbatim and are NOT forced to
be pairwise distinct; they are pairwise distinct exactly when the plan text
itself has pairwise distinct line ordinals: parsing any rendered
well-formed plan whose ordinals are pairwise distinct (not necessarily
contiguous) yields tasks with pairwise distinct ordinals. -/
theorem C7_amended (l : List (List Char × Char × List Char))
    (hwf : ∀ x ∈ l, wfTask x = true)
    (hnodup : (l.map (fun x => x.1)).Nodup) :
    ((parse_tasks (String.mk (renderPlan l))).map Task.num).Nodup := by
  rw [parse_render l hwf, List.map_map]
  have hinj : Function.Injective String.mk := fun a b h => congrArg String.data h
  have he : (Task.num ∘ fun x : List Char × Char × List Char =>
      ({ num := String.mk x.1, text := String.mk x.2.2 } : Task)) =
      (String.mk ∘ fun x => x.1) := rfl
  rw [he, ← List.map_map]
  exact hnodup.map hinj

/-- C7 witness: the amended theorem at a plan with the non-contiguous
distinct ordinals 1 and 3. -/
theorem C7_witness :
    ((parse_tasks (String.mk (renderPlan
        [(['1'], '.', "A".data), (['3'], '.', "B".data)]))).map Task.num).Nodup :=
  C7_amended [(['1'], '.', "A".data), (['3'], '.', "B".data)] (by decide) (by decide)

end ResearchAgent
